import Mathlib

/-!
Verification of `torchsnapshot/snapshot.py` (the snapshot orchestration
module).  The Python source is shallowly embedded: pure helpers become Lean
functions, the effectful orchestration methods become explicit event traces
or state-passing functions, and the collective-communication primitives of
`PGWrapper` (module `pg_wrapper`, which is not part of the provided source)
are modelled from the specification of their contract.  Definitions come
first, theorems afterwards.
-/

namespace TorchSnapshot

/-! ## String ordering

Python compares strings lexicographically by Unicode code point.  We model
this on the character list underlying a Lean `String`, avoiding the built-in
`String` order (whose decision procedure does not reduce in the kernel).
-/

/-- Lexicographic strict order on character lists, by code point, as used by
Python's `<` on `str`. -/
def charListLt : List Char → List Char → Bool
  | [], [] => false
  | [], _ :: _ => true
  | _ :: _, [] => false
  | a :: as, b :: bs => (decide (a < b)) || (a == b && charListLt as bs)

/-- Python's `<=` on `str`: equal or lexicographically smaller. -/
def strLeB (s t : String) : Bool := s == t || charListLt s.data t.data

/-- The propositional form of `strLeB`, used as the sort order. -/
def strLe (s t : String) : Prop := strLeB s t = true

instance : DecidableRel strLe := fun _ _ => inferInstanceAs (Decidable (_ = true))

/-! ## Modelled collectives

`PGWrapper` (module `pg_wrapper`) is not part of the provided source; its
contract is taken from the specification (§4.1). -/

/-- Modelled from the spec: `PGWrapper.all_gather_object`.  Every rank
receives the ordered sequence of all ranks' contributions, one per rank;
the received list is the same on every rank `r`. -/
def all_gather_object (inputs : List α) (r : Nat) : List α := inputs

/-- Modelled from the spec: `PGWrapper.broadcast_object_list` with source
rank `src`.  Every rank `r` receives the value proposed by `src`. -/
def broadcast_object (inputs : List α) (src : Nat) (dflt : α) (r : Nat) : α :=
  inputs.getD src dflt

/-! ## `Snapshot._gather_keys` (snapshot.py lines 814-819) -/

/-- `Snapshot._gather_keys` after the all-gather:
`sorted(set(itertools.chain.from_iterable(gathered_keys)))`.
`List.flatten` models `itertools.chain.from_iterable`, `List.dedup` models
`set`, and `List.insertionSort` models Python's `sorted` over the code-point
string order (on duplicate-free input every sort agrees). -/
def gather_keys (gathered_keys : List (List String)) : List String :=
  List.insertionSort strLe gathered_keys.flatten.dedup

/-- The global key list as computed on rank `r`: the rank all-gathers every
rank's local key list and applies `_gather_keys`. -/
def gather_keys_at_rank (local_key_lists : List (List String)) (r : Nat) : List String :=
  gather_keys (all_gather_object local_key_lists r)

/-! ## The capture/restore loops over the global key order
(snapshot.py lines 362-368 and 462-470) -/

/-- One observable step of the per-key loops in `_take_impl` and `restore`. -/
inductive LoopEvent
  | capture (key : String)
  | load (key : String)
  | barrier
deriving DecidableEq

/-- The event trace of the capture loop in `_take_impl` (lines 362-368): for
each `key` in `global_keys`, call `app_state[key].state_dict()` when the key
is present in this rank's `app_state` (skip otherwise), then always execute
`pg_wrapper.barrier()`. -/
def take_loop : List String → List String → List LoopEvent
  | [], _ => []
  | key :: rest, local_keys =>
    (if key ∈ local_keys then [LoopEvent.capture key] else [])
      ++ [LoopEvent.barrier] ++ take_loop rest local_keys

/-- The event trace of the restore loop in `Snapshot.restore` (lines
462-470): `_load_stateful` is invoked with `app_state.get(key)` and returns
immediately when the key is absent (`stateful is None`), so a load is
performed exactly for the keys present locally; a barrier follows every
key. -/
def restore_loop : List String → List String → List LoopEvent
  | [], _ => []
  | key :: rest, local_keys =>
    (if key ∈ local_keys then [LoopEvent.load key] else [])
      ++ [LoopEvent.barrier] ++ restore_loop rest local_keys

/-- The keys captured along a loop trace, in order. -/
def capturedKeys (evs : List LoopEvent) : List String :=
  evs.filterMap (fun e => match e with | LoopEvent.capture k => some k | _ => none)

/-- The keys loaded along a loop trace, in order. -/
def loadedKeys (evs : List LoopEvent) : List String :=
  evs.filterMap (fun e => match e with | LoopEvent.load k => some k | _ => none)

/-- The number of barriers executed along a loop trace. -/
def barrierCount (evs : List LoopEvent) : Nat := evs.count LoopEvent.barrier

/-! ## `fnmatch.fnmatch` (Python standard library, POSIX behaviour)

`_calculate_replicated_entries` (line 613) matches flattened paths against
glob patterns with `fnmatch.fnmatch`.  On POSIX, `os.path.normcase` is the
identity, so `fnmatch` is pure glob matching over the whole string with
`*` (any sequence), `?` (any one character) and `[...]`/`[!...]` character
classes with ranges; a `[` without a closing `]` is a literal. -/

/-- Membership of a character in the body of a glob character class;
`a-b` denotes an inclusive code-point range, a `-` in first or last
position is a literal. -/
def charInClass (c : Char) : List Char → Bool
  | a :: '-' :: b :: rest => (a ≤ c && c ≤ b) || charInClass c rest
  | a :: rest => (c == a) || charInClass c rest
  | [] => false

/-- Scan a character-class body up to the first closing `]`, returning the
accumulated body and the remainder of the pattern. -/
def splitClass (acc : List Char) : List Char → Option (List Char × List Char)
  | [] => none
  | ']' :: rest => some (acc.reverse, rest)
  | c :: rest => splitClass (c :: acc) rest

/-- Parse the pattern after a `[`: optional leading `!` negates the class,
and a `]` in first position is a literal member.  Returns the membership
test and the rest of the pattern, or `none` when the class is unterminated
(in which case `[` is matched literally). -/
def parseClass (ps : List Char) : Option ((Char → Bool) × List Char) :=
  match ps with
  | '!' :: ']' :: rest2 =>
    (splitClass [']'] rest2).map (fun q => (fun c => !(charInClass c q.1), q.2))
  | '!' :: rest =>
    (splitClass [] rest).map (fun q => (fun c => !(charInClass c q.1), q.2))
  | ']' :: rest2 =>
    (splitClass [']'] rest2).map (fun q => (fun c => charInClass c q.1, q.2))
  | _ => (splitClass [] ps).map (fun q => (fun c => charInClass c q.1, q.2))

/-- The glob matcher: does the pattern (first argument) match the whole
name (second argument)? -/
def fnmatchAux : List Char → List Char → Bool
  | [], [] => true
  | [], _ :: _ => false
  | '*' :: ps, cs =>
    fnmatchAux ps cs ||
      (match cs with
       | [] => false
       | _ :: cs2 => fnmatchAux ('*' :: ps) cs2)
  | '?' :: _, [] => false
  | '?' :: ps, _ :: cs => fnmatchAux ps cs
  | '[' :: ps, cs =>
    match parseClass ps with
    | some (test, rest) =>
      match cs with
      | [] => false
      | c :: cs2 => test c && fnmatchAux rest cs2
    | none =>
      match cs with
      | [] => false
      | c :: cs2 => (c == '[') && fnmatchAux ps cs2
  | p :: ps, c :: cs => (p == c) && fnmatchAux ps cs
  | _ :: _, [] => false
termination_by ps cs => (cs.length, ps.length)

/-- `fnmatch.fnmatch(name, pat)` on a POSIX system. -/
def fnmatch (name pat : String) : Bool :=
  fnmatchAux pat.data name.data

/-! ## `Snapshot._coalesce_replicated` (snapshot.py lines 809-812) -/

/-- `Snapshot._coalesce_replicated`:
`set.intersection(*map(set, global_replicated))` — the patterns proposed by
every rank.  Computed as a duplicate-free list: the first rank's patterns
restricted to those present in every other rank's list.  (The source
requires at least one rank; `world_size` is always positive.) -/
def coalesce_replicated (global_replicated : List (List String)) : List String :=
  match global_replicated with
  | [] => []
  | l :: rest => l.dedup.filter (fun p => rest.all (fun m => decide (p ∈ m)))

/-! ## `Snapshot._calculate_replicated_entries` (snapshot.py lines 605-638) -/

/-- The aspect of a flattened value that `_calculate_replicated_entries`
inspects: whether it is a `ShardedTensor`.  All other value details are
irrelevant to replication classification. -/
inductive FlatValue
  | shardedTensor
  | other
deriving DecidableEq

/-- Lines 611-616: the replicated paths this rank proposes — the flattened
paths that match at least one coalesced glob pattern and whose value is not
a `ShardedTensor`. -/
def proposed_replicated_paths (flattened : List (String × FlatValue))
    (replicated : List String) : List String :=
  (flattened.filter (fun pv =>
    (replicated.any (fun p => fnmatch pv.1 p)) && !(pv.2 == FlatValue.shardedTensor))).map
    Prod.fst

/-- Lines 626-629: rank 0's `path_count` table — the total number of
occurrences of `p` across all gathered proposal lists. -/
def path_count (obj_list : List (List String)) (p : String) : Nat :=
  (obj_list.map (fun l => l.count p)).sum

/-- `Snapshot._calculate_replicated_entries` as observed on rank `r`, given
every rank's flattened state dict (`world_size` is the number of ranks).
Each rank computes its local proposals (lines 611-616); the proposal lists
are all-gathered (lines 618-619); rank 0 keeps those of its own proposals
whose count equals `world_size` (lines 621-633) while other ranks hold an
empty list (lines 634-635); and the result list is broadcast from rank 0
(lines 636-638). -/
def calculate_replicated_entries_at_rank
    (flattened_per_rank : List (List (String × FlatValue)))
    (replicated : List String) (r : Nat) : List String :=
  let world_size := flattened_per_rank.length
  let obj_list := all_gather_object
    (flattened_per_rank.map (fun f => proposed_replicated_paths f replicated)) r
  let per_rank_lists := (List.range world_size).map (fun i =>
    if i = 0 then
      (obj_list.getD 0 []).filter (fun p => path_count obj_list p == world_size)
    else [])
  broadcast_object per_rank_lists 0 [] r

/-! ## Path coalescing (`_coalesce_path_and_replicated`, snapshot.py lines
752-789) -/

/-- The outcome of the path-coalescing step: the path every rank continues
with, and whether this rank logged a divergence warning.  The result type
has no error alternative: path divergence is resolved by fixed authority,
never raised. -/
structure CoalescedPath where
  path : String
  warned : Bool
deriving DecidableEq

/-- Lines 763-772: `obj_list = [path]` is broadcast from rank 0, so every
rank continues with rank 0's proposed path (`obj_list[0]`); a rank whose own
proposal differs from the received one only logs `logger.warning`. -/
def coalesce_path_at_rank (proposed_paths : List String) (r : Nat) : CoalescedPath :=
  let received := broadcast_object proposed_paths 0 "" r
  { path := received, warned := decide (received ≠ proposed_paths.getD r "") }

/-! ## App-state validation and RNG-state popping
(`_validate_app_state` lines 640-648, `_pop_rng_state` lines 821-840) -/

/-- The aspect of an `app_state` value relevant to validation: a proper
`Stateful`, the special `RNGState` stateful, or a non-`Stateful` value. -/
inductive StateKind
  | stateful
  | rngState
  | nonStateful
deriving DecidableEq

/-- An `app_state` dict: insertion-ordered key/value bindings. -/
abbrev AppState := List (String × StateKind)

/-- Errors raised by the orchestration methods. -/
inductive PyErr
  | typeError (key : String)
  | multipleRngError
  | writeFailure (msg : String)
  | readFailure (msg : String)
  | lookupError
  | valueError
deriving DecidableEq

/-- `Snapshot._validate_app_state` (lines 640-648): iterate the dict items
and raise `TypeError` at the first value that is not `Stateful`. -/
def validate_app_state : AppState → Option PyErr
  | [] => none
  | (k, v) :: rest =>
    if v = StateKind.nonStateful then some (PyErr.typeError k)
    else validate_app_state rest

/-- `Snapshot._pop_rng_state` (lines 821-840): collect the `RNGState`
entries; raise `RuntimeError` when there is more than one; otherwise delete
the single entry (if any) from the dict and return it. -/
def pop_rng_state (app : AppState) :
    Except PyErr (Option (String × StateKind) × AppState) :=
  let items := app.filter (fun kv => kv.2 == StateKind.rngState)
  if 1 < items.length then Except.error PyErr.multipleRngError
  else
    match items with
    | [] => Except.ok (none, app)
    | kv :: _ => Except.ok (some kv, app.filter (fun x => !(x.1 == kv.1)))

/-- The number of `RNGState` components registered in `app_state`. -/
def rng_count (app : AppState) : Nat :=
  (app.filter (fun kv => kv.2 == StateKind.rngState)).length

/-- Whether `app_state` maps some key to a non-`Stateful` value. -/
def has_non_stateful (app : AppState) : Bool :=
  app.any (fun kv => kv.2 == StateKind.nonStateful)

/-! ## Control-flow traces of the orchestration methods -/

/-- `SNAPSHOT_METADATA_FNAME` (snapshot.py line 62). -/
def SNAPSHOT_METADATA_FNAME : String := ".snapshot_metadata"

/-- Observable control events of the orchestration methods, in program
order.  `writeMetadata` carries the storage path written by
`_write_snapshot_metadata` (lines 731-741). -/
inductive Ev
  | validateAppState
  | coalesce
  | openStorage
  | popRngState
  | captureRng
  | gatherGlobalKeys
  | captureLoop
  | restoreRng
  | classifyReplication
  | prepareWrites
  | partitionWrites
  | batchWrites
  | gatherManifest
  | scheduleWriteIO
  | syncComplete
  | barrier
  | writeMetadata (fname : String)
  | closeStorage
  | closeEventLoop
  | loadLoop
  | loadRng
  | readMetadata
  | scheduleReadIO
  | reportError (msg : String)
  | storeBarrierArrive
  | storeBarrierDepart
deriving DecidableEq

/-- Control-flow trace of `Snapshot._take_impl` (lines 318-435): copy the
dict and pop the RNG state (331-332, raising on multiple `RNGState`s);
capture the RNG state first when present (345-350); gather the global keys
(358-360); run the capture loop (362-368); restore the RNG state (372-374);
classify replication (376-378); prepare, partition and batch the writes
(384-414); gather the global manifest (420); schedule the write I/O
(422-429).  Returns the events executed and the error raised, if any. -/
def take_impl_events (app : AppState) : List Ev × Option PyErr :=
  match pop_rng_state app with
  | Except.error e => ([Ev.popRngState], some e)
  | Except.ok (rngItem, _) =>
    ([Ev.popRngState]
      ++ (match rngItem with | some _ => [Ev.captureRng] | none => [])
      ++ [Ev.gatherGlobalKeys, Ev.captureLoop]
      ++ (match rngItem with | some _ => [Ev.restoreRng] | none => [])
      ++ [Ev.classifyReplication, Ev.prepareWrites, Ev.partitionWrites,
          Ev.batchWrites, Ev.gatherManifest, Ev.scheduleWriteIO], none)

/-- The outcome of `Snapshot.take`: its event trace, the error raised (if
any), and the path recorded in the returned `Snapshot`. -/
structure TakeOut where
  events : List Ev
  error : Option PyErr
  snapshotPath : Option String
deriving DecidableEq

/-- Control-flow trace of `Snapshot.take` (lines 169-240) on rank `r`:
validate the app state (201); coalesce path and replication hints
(206-211); open the storage plugin (212-214); run `_take_impl` (215-224);
`pending_io_work.sync_complete` (225), which re-raises a write failure
(abstracted by `write_failure`); a full barrier (228); rank 0 writes the
metadata document (229-234); close storage and event loop (236-237); return
a `Snapshot` for the coalesced path (238-240).  `take` has no
`try`/`finally`, so on an error path the close calls are not executed. -/
def take_events (app : AppState) (proposed_paths : List String) (r : Nat)
    (write_failure : Option String) : TakeOut :=
  match validate_app_state app with
  | some e => { events := [Ev.validateAppState], error := some e, snapshotPath := none }
  | none =>
    let path := (coalesce_path_at_rank proposed_paths r).path
    let impl := take_impl_events app
    let pre := [Ev.validateAppState, Ev.coalesce, Ev.openStorage] ++ impl.1
    match impl.2 with
    | some e => { events := pre, error := some e, snapshotPath := none }
    | none =>
      match write_failure with
      | some msg =>
        { events := pre ++ [Ev.syncComplete],
          error := some (PyErr.writeFailure msg), snapshotPath := none }
      | none =>
        { events := pre ++ [Ev.syncComplete, Ev.barrier]
            ++ (if r = 0 then [Ev.writeMetadata SNAPSHOT_METADATA_FNAME] else [])
            ++ [Ev.closeStorage, Ev.closeEventLoop],
          error := none, snapshotPath := some path }

/-- Control-flow trace of the synchronous part of `Snapshot.async_take`
(lines 242-315) on rank `r`: validation (282), path/replication coalescing
(286-291), storage plugin creation (292-294) and `_take_impl` (296-305) run
on the caller; the commit continues in `PendingSnapshot` (307-315). -/
def async_take_events (app : AppState) : List Ev × Option PyErr :=
  match validate_app_state app with
  | some e => ([Ev.validateAppState], some e)
  | none =>
    let impl := take_impl_events app
    ([Ev.validateAppState, Ev.coalesce, Ev.openStorage] ++ impl.1, impl.2)

/-- The outcome of `Snapshot.restore`. -/
structure RestoreOut where
  events : List Ev
  error : Option PyErr
deriving DecidableEq

/-- Control-flow trace of `Snapshot.restore` (lines 437-483): validate
(446); open the storage plugin (448-454); copy the dict and pop the RNG
state (456-457); gather the global keys (459-461); run the load loop
(462-470), whose storage reads may fail (abstracted by `read_failure`);
load the RNG state last when present (472-481); close storage and event
loop (482-483).  `restore` has no `try`/`finally` either. -/
def restore_events (app : AppState) (read_failure : Option String) : RestoreOut :=
  match validate_app_state app with
  | some e => { events := [Ev.validateAppState], error := some e }
  | none =>
    let pre := [Ev.validateAppState, Ev.openStorage]
    match pop_rng_state app with
    | Except.error e => { events := pre ++ [Ev.popRngState], error := some e }
    | Except.ok (rngItem, _) =>
      match read_failure with
      | some msg =>
        { events := pre ++ [Ev.popRngState, Ev.gatherGlobalKeys, Ev.loadLoop],
          error := some (PyErr.readFailure msg) }
      | none =>
        { events := pre ++ [Ev.popRngState, Ev.gatherGlobalKeys, Ev.loadLoop]
            ++ (match rngItem with | some _ => [Ev.loadRng] | none => [])
            ++ [Ev.closeStorage, Ev.closeEventLoop],
          error := none }

/-! ## `PendingSnapshot` (snapshot.py lines 856-947)

The store-based `LinearBarrier` (module `dist_store`) is not part of the
provided source; `report_error` aborting peer waiters is taken from the
specification (§4.2). -/

/-- The steps attempted inside the `try` block of
`PendingSnapshot._complete_snapshot` (lines 913-923). -/
inductive CStep
  | ioComplete
  | barrierArrive
  | metadataWrite
  | barrierDepart
deriving DecidableEq

/-- The try-block steps executed on rank `r`: `sync_complete` (914),
`barrier.arrive` (915), the leader-only metadata write (917-922),
`barrier.depart` (923). -/
def steps_for_rank (r : Nat) : List CStep :=
  [CStep.ioComplete, CStep.barrierArrive]
    ++ (if r = 0 then [CStep.metadataWrite] else [])
    ++ [CStep.barrierDepart]

/-- The observable event of each completed step. -/
def step_event : CStep → Ev
  | CStep.ioComplete => Ev.syncComplete
  | CStep.barrierArrive => Ev.storeBarrierArrive
  | CStep.metadataWrite => Ev.writeMetadata SNAPSHOT_METADATA_FNAME
  | CStep.barrierDepart => Ev.storeBarrierDepart

/-- Run the try-block steps in order; `failure` designates the step (if
any) whose attempt raises.  Steps after the failing one are not
executed. -/
def run_steps_events : List CStep → Option (CStep × String) → List Ev
  | [], _ => []
  | s :: rest, failure =>
    match failure with
    | some (fs, _) =>
      if s = fs then [] else step_event s :: run_steps_events rest failure
    | none => step_event s :: run_steps_events rest none

/-- The exception escaping the try block, if any: the designated failure,
when its step is actually reached. -/
def run_steps_err : List CStep → Option (CStep × String) → Option String
  | [], _ => none
  | s :: rest, failure =>
    match failure with
    | some (fs, msg) => if s = fs then some msg else run_steps_err rest failure
    | none => none

/-- The state of a `PendingSnapshot` handle after its background thread
finished. -/
structure CompleteOut where
  events : List Ev
  excInfo : Option String
  done : Bool
deriving DecidableEq

/-- `PendingSnapshot._complete_snapshot` (lines 891-933): run the try-block
steps; on an exception, call `barrier.report_error(str(e))` and record
`sys.exc_info()` on the handle (924-929); in all cases close the storage
plugin and the event loop in the `finally` block (930-932) and set
`self._done = True` (933). -/
def complete_snapshot (r : Nat) (failure : Option (CStep × String)) : CompleteOut :=
  let evs := run_steps_events (steps_for_rank r) failure
  match run_steps_err (steps_for_rank r) failure with
  | some msg =>
    { events := evs ++ [Ev.reportError msg, Ev.closeStorage, Ev.closeEventLoop],
      excInfo := some msg, done := true }
  | none =>
    { events := evs ++ [Ev.closeStorage, Ev.closeEventLoop],
      excInfo := none, done := true }

/-- `PendingSnapshot.wait` (lines 935-944): join the thread, re-raise a
recorded exception (wrapped in a `RuntimeError` carrying its text), else
return a `Snapshot` for `self.path` (the coalesced path recorded at
construction). -/
def pending_wait (out : CompleteOut) (path : String) : Except String String :=
  match out.excInfo with
  | some msg =>
    Except.error ("Encountered exception while taking snapshot asynchronously:\n" ++ msg)
  | none => Except.ok path

/-- `PendingSnapshot.done` (lines 946-947): a plain read of the `_done`
flag; its type is `Bool`, not an exception-carrying result. -/
def pending_done (out : CompleteOut) : Bool := out.done

/-! ## `Snapshot.read_object` (snapshot.py lines 501-594) -/

/-- A manifest entry as far as `read_object` distinguishes them: a
`PrimitiveEntry` carrying its value (payload abstracted to `Nat`), or any
other entry kind. -/
inductive Entry
  | primitive (v : Nat)
  | tensor
  | shardedT
  | container
deriving DecidableEq

/-- The value produced by a successful `read_object`. -/
inductive ReadResult
  | primitiveValue (v : Nat)
  | loadedObject
deriving DecidableEq

/-- Helper for `path.split("/", 1)`: scan to the first `/`. -/
def split_once_aux (acc : List Char) : List Char → Option (List Char × List Char)
  | [] => none
  | c :: rest =>
    if c = '/' then some (acc.reverse, rest) else split_once_aux (c :: acc) rest

/-- `path.split("/", 1)` (line 539); `none` when there is no separator, in
which case the tuple unpacking raises `ValueError`. -/
def split_once (s : String) : Option (String × String) :=
  (split_once_aux [] s.data).map (fun q => (String.mk q.1, String.mk q.2))

/-- Helper for Python `int()` digit syntax: after the first digit, single
underscores are allowed between digits. -/
def pyDigitsRest : List Char → Bool
  | [] => true
  | '_' :: [] => false
  | '_' :: c :: rest => c.isDigit && pyDigitsRest rest
  | c :: rest => c.isDigit && pyDigitsRest rest

/-- Python `int()` digit syntax: a nonempty digit sequence with optional
single underscores between digits. -/
def pyDigits : List Char → Bool
  | [] => false
  | c :: rest => c.isDigit && pyDigitsRest rest

/-- The numeric value of a digit-and-underscore sequence. -/
def digitsVal (l : List Char) : Int :=
  l.foldl (fun acc c => if c = '_' then acc else acc * 10 + (c.toNat - 48 : Int)) 0

/-- `int(rank_str)` (line 540): strip whitespace, allow one optional sign,
then Python digit syntax; `none` models `ValueError`. -/
def parse_int_py (s : String) : Option Int :=
  let t := ((s.data.dropWhile Char.isWhitespace).reverse.dropWhile
    Char.isWhitespace).reverse
  match t with
  | '+' :: rest => if pyDigits rest then some (digitsVal rest) else none
  | '-' :: rest => if pyDigits rest then some (-(digitsVal rest)) else none
  | rest => if pyDigits rest then some (digitsVal rest) else none

/-- The outcome of `Snapshot.read_object`. -/
structure ReadObjectOut where
  events : List Ev
  result : Except PyErr ReadResult

/-- `Snapshot.read_object` (lines 501-594).  `project` abstracts
`get_manifest_for_rank` (module `manifest_ops`, not part of the provided
source): for a rank it yields the rank-projected manifest and the merged
sharded-tensor entries as association lists.  Steps: split the path at the
first `/` and parse the rank (539-540; either failure raises `ValueError`
before anything else runs); project the manifest, which reads the snapshot
metadata (545-547); raise when the unranked path is absent from both
mappings (549-554) — equivalently, when the combined lookup of line 568
(`merged_sd_entries.get(unranked_path) or manifest[unranked_path]`) yields
nothing; for a `PrimitiveEntry` return its value directly (569-570) with no
read requests scheduled (and without reaching the close calls at 592-593);
otherwise prepare, batch and execute the reads and close storage and event
loop (571-594). -/
def read_object_events
    (project : Int → List (String × Entry) × List (String × Entry))
    (path : String) : ReadObjectOut :=
  match split_once path with
  | none => { events := [], result := Except.error PyErr.valueError }
  | some (rank_str, unranked) =>
    match parse_int_py rank_str with
    | none => { events := [], result := Except.error PyErr.valueError }
    | some rank =>
      let manifest := (project rank).1
      let merged := (project rank).2
      match (merged.lookup unranked).or (manifest.lookup unranked) with
      | none => { events := [Ev.readMetadata], result := Except.error PyErr.lookupError }
      | some (Entry.primitive v) =>
        { events := [Ev.readMetadata, Ev.openStorage],
          result := Except.ok (ReadResult.primitiveValue v) }
      | some _ =>
        { events := [Ev.readMetadata, Ev.openStorage, Ev.scheduleReadIO,
            Ev.closeStorage, Ev.closeEventLoop],
          result := Except.ok ReadResult.loadedObject }

/-! ## RNG-state semantics of `_take_impl` and `restore`
(snapshot.py lines 331-374 and 456-481)

The global RNG state is modelled as a `Nat`.  `RNGState` (module
`rng_state`) is not part of the provided source; modelled from the spec:
its `state_dict()` captures the current RNG state without perturbing it and
its `load_state_dict(sd)` sets the RNG state to the captured value.  An
ordinary component's `state_dict`/`load_state_dict` may perturb the RNG
state arbitrarily. -/

/-- A stateful component in the RNG-effect model. -/
inductive TComp
  | ordinary (capture_eff : Nat → Nat) (load_eff : Nat → Nat)
  | rngState

/-- The RNG-model app state. -/
abbrev TAppState := List (String × TComp)

/-- Whether a component is the `RNGState` component. -/
def isRngComp : TComp → Bool
  | TComp.rngState => true
  | _ => false

/-- The (first) `RNGState` item of the dict, as selected by
`_pop_rng_state`. -/
def rng_item_T (app : TAppState) : Option (String × TComp) :=
  app.find? (fun kv => isRngComp kv.2)

/-- Fine-grained events of the RNG-effect model. -/
inductive REv
  | rngCapture
  | keyCapture (k : String)
  | rngRestore
  | classify
  | keyLoad (k : String)
  | rngLoad
deriving DecidableEq

/-- The capture events of the per-key loop (lines 362-368): one
`keyCapture` per global key present in the (RNG-popped) local dict. -/
def capture_events (app : TAppState) (gk : List String) : List REv :=
  gk.filterMap (fun k =>
    if (app.lookup k).isSome then some (REv.keyCapture k) else none)

/-- The RNG state after the per-key capture loop: each locally present
component's `state_dict()` may perturb the RNG state. -/
def capture_rng_effect (app : TAppState) (gk : List String) (rng0 : Nat) : Nat :=
  gk.foldl (fun rng k =>
    match app.lookup k with
    | some (TComp.ordinary ce _) => ce rng
    | some TComp.rngState => rng
    | none => rng) rng0

/-- The outcome of `_take_impl` in the RNG-effect model. -/
structure TakeRngOut where
  events : List REv
  finalRng : Nat
  capturedRng : Option Nat

/-- The RNG-relevant behaviour of `_take_impl` (lines 331-378): pop the
`RNGState` item (332); when present, call its `state_dict()` first,
capturing the current RNG state (345-350); run the capture loop over the
global keys (362-368); then call `load_state_dict` on the `RNGState`
component with the captured dict, restoring the captured RNG state
(370-374); only then classify replication and continue (376 onwards). -/
def take_impl_rng (app : TAppState) (gk : List String) (rng0 : Nat) : TakeRngOut :=
  match rng_item_T app with
  | some (rkey, _) =>
    let app2 := app.filter (fun kv => !(kv.1 == rkey))
    let captured := rng0
    { events := [REv.rngCapture] ++ capture_events app2 gk
        ++ [REv.rngRestore, REv.classify],
      finalRng := captured,
      capturedRng := some captured }
  | none =>
    { events := capture_events app gk ++ [REv.classify],
      finalRng := capture_rng_effect app gk rng0,
      capturedRng := none }

/-- The load events of the restore loop (lines 462-470). -/
def load_events (app : TAppState) (gk : List String) : List REv :=
  gk.filterMap (fun k =>
    if (app.lookup k).isSome then some (REv.keyLoad k) else none)

/-- The RNG state after the restore loop: each locally present component's
`load_state_dict` may perturb the RNG state. -/
def load_rng_effect (app : TAppState) (gk : List String) (rng0 : Nat) : Nat :=
  gk.foldl (fun rng k =>
    match app.lookup k with
    | some (TComp.ordinary _ le) => le rng
    | some TComp.rngState => rng
    | none => rng) rng0

/-- The outcome of `restore` in the RNG-effect model. -/
structure RestoreRngOut where
  events : List REv
  finalRng : Nat

/-- The RNG-relevant behaviour of `Snapshot.restore` (lines 456-481): pop
the `RNGState` item (457); run the load loop over the global keys
(462-470); when an `RNGState` item was present, load it last (472-481),
setting the RNG state to the value `storedRng` persisted in the
snapshot. -/
def restore_rng (app : TAppState) (gk : List String) (storedRng rng0 : Nat) :
    RestoreRngOut :=
  match rng_item_T app with
  | some (rkey, _) =>
    let app2 := app.filter (fun kv => !(kv.1 == rkey))
    { events := load_events app2 gk ++ [REv.rngLoad],
      finalRng := storedRng }
  | none =>
    { events := load_events app gk,
      finalRng := load_rng_effect app gk rng0 }

/-! ## Dict aliasing (`app_state.copy()` then `del` inside
`_pop_rng_state`; snapshot.py lines 331-332, 456-457, 821-840)

Python dicts are mutable heap objects passed by reference.  A small heap of
dicts makes the aliasing explicit: `take`, `async_take` and `restore` first
copy the caller's dict, and `_pop_rng_state`'s `del app_state[key]` mutates
only the dict behind the reference it is handed — the copy. -/

/-- A reference to a dict cell. -/
abbrev Ref := Nat

/-- A heap of dict cells. -/
structure Heap where
  cells : List AppState
deriving DecidableEq

/-- Dereference. -/
def Heap.get (h : Heap) (r : Ref) : AppState := h.cells.getD r []

/-- In-place update of one cell. -/
def Heap.set (h : Heap) (r : Ref) (d : AppState) : Heap := ⟨h.cells.set r d⟩

/-- Allocate a fresh cell. -/
def Heap.alloc (h : Heap) (d : AppState) : Heap × Ref :=
  (⟨h.cells ++ [d]⟩, h.cells.length)

/-- `app_state.copy()` (lines 331 and 456): a fresh dict with the same
bindings. -/
def dict_copy (h : Heap) (r : Ref) : Heap × Ref := h.alloc (h.get r)

/-- `_pop_rng_state` acting on a dict reference (lines 821-840): raise on
multiple `RNGState`s (before any mutation), else `del app_state[key]`
mutates the dict behind the given reference. -/
def pop_rng_state_ref (h : Heap) (r : Ref) : Except (PyErr × Heap) Heap :=
  let d := h.get r
  let items := d.filter (fun kv => kv.2 == StateKind.rngState)
  if 1 < items.length then Except.error (PyErr.multipleRngError, h)
  else
    match items with
    | [] => Except.ok h
    | kv :: _ => Except.ok (h.set r (d.filter (fun x => !(x.1 == kv.1))))

/-- The `app_state` manipulation shared by `take`/`async_take` (via
`_take_impl`, lines 331-332) and `restore` (lines 456-457): copy the
caller's dict, then pop the RNG entry from the copy.  On an exception the
heap reached so far is carried in the error. -/
def snapshot_appstate_ops (h : Heap) (caller : Ref) :
    Except (PyErr × Heap) (Heap × Ref) :=
  let copied := dict_copy h caller
  match pop_rng_state_ref copied.1 copied.2 with
  | Except.error e => Except.error e
  | Except.ok h2 => Except.ok (h2, copied.2)

/-! ## Statement helpers -/

/-- Is the event a metadata-document write? -/
def isWriteMetadata : Ev → Bool
  | Ev.writeMetadata _ => true
  | _ => false

/-- Does the trace contain a metadata-document write? -/
def hasMetadataWrite (evs : List Ev) : Bool := evs.any isWriteMetadata

/-- The prefix of a trace strictly before its first full barrier. -/
def beforeBarrier (evs : List Ev) : List Ev :=
  evs.takeWhile (fun e => !(e == Ev.barrier))

/-- Events that perform storage I/O (reads or writes of snapshot data or
metadata). -/
def isStorageIOEv : Ev → Bool
  | Ev.scheduleWriteIO => true
  | Ev.syncComplete => true
  | Ev.writeMetadata _ => true
  | Ev.scheduleReadIO => true
  | Ev.loadLoop => true
  | Ev.loadRng => true
  | Ev.readMetadata => true
  | _ => false

/-- Is the error one raised by the two app-state validation checks? -/
def isValidationError : Option PyErr → Bool
  | some (PyErr.typeError _) => true
  | some PyErr.multipleRngError => true
  | _ => false

/-- Both deterministic-cleanup events occur in the trace. -/
def closesAll (evs : List Ev) : Prop :=
  Ev.closeStorage ∈ evs ∧ Ev.closeEventLoop ∈ evs

/-! ## Theorems: string order -/

theorem charListLt_cons_iff {a b : Char} {as bs : List Char} :
    charListLt (a :: as) (b :: bs) = true ↔ a < b ∨ (a = b ∧ charListLt as bs = true) := by
  simp [charListLt, Bool.or_eq_true, Bool.and_eq_true, decide_eq_true_eq, beq_iff_eq]

theorem charListLt_trichot : ∀ as bs : List Char,
    charListLt as bs = true ∨ as = bs ∨ charListLt bs as = true
  | [], [] => Or.inr (Or.inl rfl)
  | [], _ :: _ => Or.inl rfl
  | _ :: _, [] => Or.inr (Or.inr rfl)
  | a :: as, b :: bs => by
    rcases lt_trichotomy a b with h | h | h
    · exact Or.inl (charListLt_cons_iff.mpr (Or.inl h))
    · subst h
      rcases charListLt_trichot as bs with h2 | h2 | h2
      · exact Or.inl (charListLt_cons_iff.mpr (Or.inr ⟨rfl, h2⟩))
      · exact Or.inr (Or.inl (by rw [h2]))
      · exact Or.inr (Or.inr (charListLt_cons_iff.mpr (Or.inr ⟨rfl, h2⟩)))
    · exact Or.inr (Or.inr (charListLt_cons_iff.mpr (Or.inl h)))

theorem charListLt_trans : ∀ as bs cs : List Char,
    charListLt as bs = true → charListLt bs cs = true → charListLt as cs = true
  | as, [], _ => fun h1 _ => absurd h1 (by cases as <;> simp [charListLt])
  | _, _ :: _, [] => fun _ h2 => absurd h2 (by simp [charListLt])
  | [], _ :: _, _ :: _ => fun _ _ => rfl
  | a :: as, b :: bs, c :: cs => fun h1 h2 => by
    rcases charListLt_cons_iff.mp h1 with hab | ⟨hab, h1x⟩ <;>
      rcases charListLt_cons_iff.mp h2 with hbc | ⟨hbc, h2x⟩
    · exact charListLt_cons_iff.mpr (Or.inl (lt_trans hab hbc))
    · exact charListLt_cons_iff.mpr (Or.inl (hbc ▸ hab))
    · exact charListLt_cons_iff.mpr (Or.inl (hab ▸ hbc))
    · exact charListLt_cons_iff.mpr
        (Or.inr ⟨hab.trans hbc, charListLt_trans as bs cs h1x h2x⟩)

theorem string_eq_of_data_eq {s t : String} (h : s.data = t.data) : s = t := by
  cases s with
  | mk d1 => cases t with
    | mk d2 => exact congrArg String.mk h

theorem strLeB_iff {s t : String} :
    strLeB s t = true ↔ s = t ∨ charListLt s.data t.data = true := by
  simp [strLeB, Bool.or_eq_true, beq_iff_eq]

theorem strLe_total (s t : String) : strLe s t ∨ strLe t s := by
  rcases charListLt_trichot s.data t.data with h | h | h
  · exact Or.inl (strLeB_iff.mpr (Or.inr h))
  · exact Or.inl (strLeB_iff.mpr (Or.inl (string_eq_of_data_eq h)))
  · exact Or.inr (strLeB_iff.mpr (Or.inr h))

theorem strLe_trans (s t u : String) (h1 : strLe s t) (h2 : strLe t u) : strLe s u := by
  rcases strLeB_iff.mp h1 with h1e | h1l
  · exact h1e ▸ h2
  · rcases strLeB_iff.mp h2 with h2e | h2l
    · exact h2e ▸ strLeB_iff.mpr (Or.inr h1l)
    · exact strLeB_iff.mpr (Or.inr (charListLt_trans _ _ _ h1l h2l))

/-! ## Theorems: claim C1 -/

theorem capturedKeys_take_loop (gk ks : List String) :
    capturedKeys (take_loop gk ks) = gk.filter (fun k => decide (k ∈ ks)) := by
  induction gk with
  | nil => rfl
  | cons key rest ih =>
    by_cases h : key ∈ ks <;>
      simp [take_loop, capturedKeys, h, List.filter_cons] at * <;>
      exact ih

theorem loadedKeys_restore_loop (gk ks : List String) :
    loadedKeys (restore_loop gk ks) = gk.filter (fun k => decide (k ∈ ks)) := by
  induction gk with
  | nil => rfl
  | cons key rest ih =>
    by_cases h : key ∈ ks <;>
      simp [restore_loop, loadedKeys, h, List.filter_cons] at * <;>
      exact ih

theorem barrierCount_take_loop (gk ks : List String) :
    barrierCount (take_loop gk ks) = gk.length := by
  induction gk with
  | nil => rfl
  | cons key rest ih =>
    by_cases h : key ∈ ks <;>
      simp [take_loop, barrierCount, h, List.count_cons, List.count_append] at * <;>
      omega

theorem barrierCount_restore_loop (gk ks : List String) :
    barrierCount (restore_loop gk ks) = gk.length := by
  induction gk with
  | nil => rfl
  | cons key rest ih =>
    by_cases h : key ∈ ks <;>
      simp [restore_loop, barrierCount, h, List.count_cons, List.count_append] at * <;>
      omega

theorem take_loop_capture_then_barrier (gk ks : List String) :
    ∀ n k, (take_loop gk ks)[n]? = some (LoopEvent.capture k) →
      (take_loop gk ks)[n + 1]? = some LoopEvent.barrier := by
  induction gk with
  | nil => intro n k h; simp [take_loop] at h
  | cons key rest ih =>
    intro n k h
    by_cases hk : key ∈ ks
    · simp only [take_loop, if_pos hk, List.cons_append, List.nil_append] at h ⊢
      match n with
      | 0 => simp
      | 1 => simp at h
      | n + 2 =>
        simp only [List.getElem?_cons_succ] at h ⊢
        exact ih n k h
    · simp only [take_loop, if_neg hk, List.cons_append, List.nil_append] at h ⊢
      match n with
      | 0 => simp at h
      | n + 1 =>
        simp only [List.getElem?_cons_succ] at h ⊢
        exact ih n k h

theorem restore_loop_load_then_barrier (gk ks : List String) :
    ∀ n k, (restore_loop gk ks)[n]? = some (LoopEvent.load k) →
      (restore_loop gk ks)[n + 1]? = some LoopEvent.barrier := by
  induction gk with
  | nil => intro n k h; simp [restore_loop] at h
  | cons key rest ih =>
    intro n k h
    by_cases hk : key ∈ ks
    · simp only [restore_loop, if_pos hk, List.cons_append, List.nil_append] at h ⊢
      match n with
      | 0 => simp
      | 1 => simp at h
      | n + 2 =>
        simp only [List.getElem?_cons_succ] at h ⊢
        exact ih n k h
    · simp only [restore_loop, if_neg hk, List.cons_append, List.nil_append] at h ⊢
      match n with
      | 0 => simp at h
      | n + 1 =>
        simp only [List.getElem?_cons_succ] at h ⊢
        exact ih n k h

theorem gather_keys_sorted (G : List (List String)) :
    (gather_keys G).Sorted strLe :=
  have : IsTotal String strLe := ⟨strLe_total⟩
  have : IsTrans String strLe := ⟨strLe_trans⟩
  List.sorted_insertionSort strLe _

theorem gather_keys_nodup (G : List (List String)) : (gather_keys G).Nodup :=
  (List.perm_insertionSort strLe _).nodup_iff.mpr (List.nodup_dedup _)

theorem gather_keys_mem (G : List (List String)) (k : String) :
    k ∈ gather_keys G ↔ ∃ l ∈ G, k ∈ l := by
  unfold gather_keys
  rw [(List.perm_insertionSort strLe _).mem_iff, List.mem_dedup, List.mem_flatten]

/-- C1: `Snapshot.take` and `Snapshot.restore` iterate stateful components in
one globally agreed key order — the sorted, duplicate-free union of all
ranks' local key lists as computed by `_gather_keys` from the all-gathered
lists; the computed order is identical on every rank; a rank whose
`app_state` lacks a key skips that key's capture (resp. restore); and a
barrier is executed after every key (one barrier per global key, and every
capture/load is immediately followed by a barrier). -/
theorem C1_global_key_order (local_key_lists : List (List String))
    (r1 r2 : Nat) (ks : List String) :
    (gather_keys_at_rank local_key_lists r1 = gather_keys_at_rank local_key_lists r2)
    ∧ (gather_keys local_key_lists).Sorted strLe
    ∧ (gather_keys local_key_lists).Nodup
    ∧ (∀ k, k ∈ gather_keys local_key_lists ↔ ∃ l ∈ local_key_lists, k ∈ l)
    ∧ capturedKeys (take_loop (gather_keys local_key_lists) ks)
        = (gather_keys local_key_lists).filter (fun k => decide (k ∈ ks))
    ∧ loadedKeys (restore_loop (gather_keys local_key_lists) ks)
        = (gather_keys local_key_lists).filter (fun k => decide (k ∈ ks))
    ∧ barrierCount (take_loop (gather_keys local_key_lists) ks)
        = (gather_keys local_key_lists).length
    ∧ barrierCount (restore_loop (gather_keys local_key_lists) ks)
        = (gather_keys local_key_lists).length
    ∧ (∀ n k, (take_loop (gather_keys local_key_lists) ks)[n]?
          = some (LoopEvent.capture k) →
        (take_loop (gather_keys local_key_lists) ks)[n + 1]? = some LoopEvent.barrier)
    ∧ (∀ n k, (restore_loop (gather_keys local_key_lists) ks)[n]?
          = some (LoopEvent.load k) →
        (restore_loop (gather_keys local_key_lists) ks)[n + 1]? = some LoopEvent.barrier) :=
  ⟨rfl, gather_keys_sorted _, gather_keys_nodup _, gather_keys_mem _,
    capturedKeys_take_loop _ _, loadedKeys_restore_loop _ _,
    barrierCount_take_loop _ _, barrierCount_restore_loop _ _,
    take_loop_capture_then_barrier _ _, restore_loop_load_then_barrier _ _⟩

/-! ## Theorems: claim C2 -/

theorem coalesce_replicated_mem (global_replicated : List (List String))
    (hne : global_replicated ≠ []) (pat : String) :
    pat ∈ coalesce_replicated global_replicated ↔ ∀ l ∈ global_replicated, pat ∈ l := by
  match global_replicated with
  | [] => exact absurd rfl hne
  | l :: rest =>
    simp only [coalesce_replicated, List.mem_filter, List.mem_dedup, List.all_eq_true,
      decide_eq_true_eq, List.mem_cons]
    constructor
    · rintro ⟨h1, h2⟩ m (rfl | hm)
      · exact h1
      · exact h2 m hm
    · intro h
      exact ⟨h l (Or.inl rfl), fun m hm => h m (Or.inr hm)⟩

theorem count_le_one_of_nodup {l : List String} (h : l.Nodup) (p : String) :
    l.count p ≤ 1 :=
  List.nodup_iff_count_le_one.mp h p

theorem path_count_le (obj_list : List (List String)) (p : String)
    (h : ∀ l ∈ obj_list, l.Nodup) : path_count obj_list p ≤ obj_list.length := by
  induction obj_list with
  | nil => simp [path_count]
  | cons l rest ih =>
    have h1 : l.count p ≤ 1 := count_le_one_of_nodup (h l (List.mem_cons_self l rest)) p
    have h2 := ih (fun m hm => h m (List.mem_cons_of_mem l hm))
    simp only [path_count, List.map_cons, List.sum_cons, List.length_cons] at *
    omega

theorem path_count_cons (l : List String) (rest : List (List String)) (p : String) :
    path_count (l :: rest) p = l.count p + path_count rest p := by
  simp [path_count]

theorem path_count_eq_length_iff (obj_list : List (List String)) (p : String)
    (h : ∀ l ∈ obj_list, l.Nodup) :
    path_count obj_list p = obj_list.length ↔ ∀ l ∈ obj_list, p ∈ l := by
  induction obj_list with
  | nil => simp [path_count]
  | cons l rest ih =>
    have h1 : l.count p ≤ 1 := count_le_one_of_nodup (h l (List.mem_cons_self l rest)) p
    have h2 := path_count_le rest p (fun m hm => h m (List.mem_cons_of_mem l hm))
    have h3 := ih (fun m hm => h m (List.mem_cons_of_mem l hm))
    have h4 : p ∈ l ↔ 0 < l.count p := List.count_pos_iff.symm
    rw [path_count_cons, List.length_cons]
    constructor
    · intro heq
      have hcnt : l.count p = 1 := by omega
      have hrest : path_count rest p = rest.length := by omega
      intro m hm
      rcases List.mem_cons.mp hm with rfl | hm
      · exact h4.mpr (by omega)
      · exact (h3.mp hrest) m hm
    · intro hall
      have hl : 0 < l.count p := h4.mp (hall l (List.mem_cons_self l rest))
      have hr : path_count rest p = rest.length :=
        h3.mpr (fun m hm => hall m (List.mem_cons_of_mem l hm))
      omega

theorem proposed_mem (flattened : List (String × FlatValue))
    (replicated : List String) (p : String) :
    p ∈ proposed_replicated_paths flattened replicated ↔
      ∃ v, (p, v) ∈ flattened ∧ (replicated.any (fun q => fnmatch p q)) = true
        ∧ v ≠ FlatValue.shardedTensor := by
  simp only [proposed_replicated_paths, List.mem_map, List.mem_filter]
  constructor
  · rintro ⟨⟨p2, v⟩, ⟨hmem, hcond⟩, rfl⟩
    simp only [Bool.and_eq_true, Bool.not_eq_eq_eq_not, Bool.not_true,
      beq_eq_false_iff_ne, ne_eq] at hcond
    exact ⟨v, hmem, hcond.1, hcond.2⟩
  · rintro ⟨v, hmem, hmatch, hsh⟩
    refine ⟨(p, v), ⟨hmem, ?_⟩, rfl⟩
    simp only [Bool.and_eq_true, Bool.not_eq_eq_eq_not, Bool.not_true,
      beq_eq_false_iff_ne, ne_eq]
    exact ⟨hmatch, hsh⟩

theorem proposed_nodup (flattened : List (String × FlatValue))
    (replicated : List String) (h : (flattened.map Prod.fst).Nodup) :
    (proposed_replicated_paths flattened replicated).Nodup := by
  unfold proposed_replicated_paths
  exact (List.Sublist.map Prod.fst (List.filter_sublist flattened)).nodup h

/-- C2: a glob pattern is honored iff every rank proposed it (set
intersection across the gathered pattern lists); the final replicated path
set is computed on rank 0, broadcast, and hence identical on every rank;
and a flattened path is in that set iff it matches at least one honored
pattern, its value on every rank is not a `ShardedTensor`, and the path was
proposed as replicated by all `world_size` ranks (i.e. it occurs, with a
non-sharded value, in every rank's flattened state). -/
theorem C2_replication_intersection
    (flattened_per_rank : List (List (String × FlatValue)))
    (patterns_per_rank : List (List String))
    (replicated : List String) (r : Nat) (p : String) (pat : String)
    (hw : 0 < flattened_per_rank.length)
    (hpat : patterns_per_rank ≠ [])
    (hnodup : ∀ f ∈ flattened_per_rank, (f.map Prod.fst).Nodup) :
    (pat ∈ coalesce_replicated patterns_per_rank ↔ ∀ l ∈ patterns_per_rank, pat ∈ l)
    ∧ (calculate_replicated_entries_at_rank flattened_per_rank replicated r
        = calculate_replicated_entries_at_rank flattened_per_rank replicated 0)
    ∧ (p ∈ calculate_replicated_entries_at_rank flattened_per_rank replicated r ↔
        ∀ f ∈ flattened_per_rank,
          ∃ v, (p, v) ∈ f ∧ (replicated.any (fun q => fnmatch p q)) = true
            ∧ v ≠ FlatValue.shardedTensor) := by
  refine ⟨coalesce_replicated_mem _ hpat pat, rfl, ?_⟩
  obtain ⟨f0, frest, rfl⟩ :=
    List.exists_cons_of_ne_nil (List.ne_nil_of_length_pos hw)
  have hnodup2 : ∀ l ∈ (f0 :: frest).map (fun f => proposed_replicated_paths f replicated),
      l.Nodup := by
    intro l hl
    rcases List.mem_map.mp hl with ⟨f, hf, rfl⟩
    exact proposed_nodup f replicated (hnodup f hf)
  have hlen : ((f0 :: frest).map (fun f => proposed_replicated_paths f replicated)).length
      = (f0 :: frest).length := by simp
  unfold calculate_replicated_entries_at_rank all_gather_object broadcast_object
  simp only [List.length_cons, List.range_succ_eq_map, List.map_cons,
    List.getD_cons_zero, if_true, eq_self_iff_true]
  rw [List.mem_filter, beq_iff_eq]
  have hpc : path_count
        (proposed_replicated_paths f0 replicated
          :: frest.map (fun f => proposed_replicated_paths f replicated)) p
        = frest.length + 1
      ↔ ∀ l ∈ (f0 :: frest).map (fun f => proposed_replicated_paths f replicated),
          p ∈ l := by
    rw [show frest.length + 1 = ((f0 :: frest).map
        (fun f => proposed_replicated_paths f replicated)).length by simp]
    exact path_count_eq_length_iff _ p hnodup2
  rw [List.map_cons] at hpc
  rw [hpc]
  constructor
  · rintro ⟨_, hall⟩ f hf
    have hm : proposed_replicated_paths f replicated
        ∈ (f0 :: frest).map (fun f => proposed_replicated_paths f replicated) :=
      List.mem_map_of_mem _ hf
    rw [List.map_cons] at hm
    exact (proposed_mem f replicated p).mp (hall _ hm)
  · intro hall
    refine ⟨(proposed_mem f0 replicated p).mpr (hall f0 (List.mem_cons_self f0 frest)), ?_⟩
    intro l hl
    rcases List.mem_cons.mp hl with rfl | hl
    · exact (proposed_mem f0 replicated p).mpr (hall f0 (List.mem_cons_self f0 frest))
    · rcases List.mem_map.mp hl with ⟨f, hf, rfl⟩
      exact (proposed_mem f replicated p).mpr (hall f (List.mem_cons_of_mem f0 hf))

/-- Witness for C2 at a concrete two-rank input. -/
theorem C2_replication_intersection_witness :
    (0 < ([[("0/model/w", FlatValue.other)], [("0/model/w", FlatValue.other)]] :
        List (List (String × FlatValue))).length)
    ∧ ([["m/*"], ["m/*", "o/*"]] : List (List String)) ≠ []
    ∧ (∀ f ∈ ([[("0/model/w", FlatValue.other)], [("0/model/w", FlatValue.other)]] :
        List (List (String × FlatValue))), (f.map Prod.fst).Nodup)
    ∧ ((("m/*" : String) ∈ coalesce_replicated [["m/*"], ["m/*", "o/*"]] ↔
        ∀ l ∈ ([["m/*"], ["m/*", "o/*"]] : List (List String)), "m/*" ∈ l)
      ∧ (calculate_replicated_entries_at_rank
            [[("0/model/w", FlatValue.other)], [("0/model/w", FlatValue.other)]]
            ["0/model/*"] 1
          = calculate_replicated_entries_at_rank
            [[("0/model/w", FlatValue.other)], [("0/model/w", FlatValue.other)]]
            ["0/model/*"] 0)
      ∧ (("0/model/w" : String) ∈ calculate_replicated_entries_at_rank
            [[("0/model/w", FlatValue.other)], [("0/model/w", FlatValue.other)]]
            ["0/model/*"] 1 ↔
          ∀ f ∈ ([[("0/model/w", FlatValue.other)], [("0/model/w", FlatValue.other)]] :
              List (List (String × FlatValue))),
            ∃ v, ("0/model/w", v) ∈ f
              ∧ ((["0/model/*"] : List String).any (fun q => fnmatch "0/model/w" q)) = true
              ∧ v ≠ FlatValue.shardedTensor)) :=
  ⟨by decide, by decide, by decide,
    C2_replication_intersection
      [[("0/model/w", FlatValue.other)], [("0/model/w", FlatValue.other)]]
      [["m/*"], ["m/*", "o/*"]] ["0/model/*"] 1 "0/model/w" "m/*"
      (by decide) (by decide) (by decide)⟩

/-! ## Theorems: claim C6 -/

/-- C6: for every take/async_take in which ranks propose possibly different
snapshot destination paths, the path actually used by every rank — for
storage access and recorded in the resulting `Snapshot` — is rank 0's
proposed path, identically on all ranks; a rank whose proposal differs from
rank 0's only sets the warning flag; and path divergence never changes the
error outcome of `take` (the error is independent of the proposed paths, so
divergence never raises). -/
theorem C6_path_coalescing (paths paths2 : List String) (r1 r2 : Nat)
    (app : AppState) (wf : Option String) :
    (coalesce_path_at_rank paths r1).path = paths.getD 0 ""
    ∧ (coalesce_path_at_rank paths r1).path = (coalesce_path_at_rank paths r2).path
    ∧ ((coalesce_path_at_rank paths r1).warned = true
        ↔ paths.getD r1 "" ≠ paths.getD 0 "")
    ∧ (∀ q, (take_events app paths r1 wf).snapshotPath = some q → q = paths.getD 0 "")
    ∧ (take_events app paths r1 wf).error = (take_events app paths2 r1 wf).error := by
  refine ⟨rfl, rfl, ?_, ?_, ?_⟩
  · simp only [coalesce_path_at_rank, broadcast_object, decide_eq_true_eq]
    exact ne_comm
  · intro q hq
    unfold take_events at hq
    cases hval : validate_app_state app with
    | some e => simp [hval] at hq
    | none =>
      simp only [hval] at hq
      cases himpl : (take_impl_events app).2 with
      | some e => simp [himpl] at hq
      | none =>
        cases wf with
        | some msg => simp [himpl] at hq
        | none =>
          simp only [himpl] at hq
          simp only [coalesce_path_at_rank, broadcast_object, Option.some.injEq] at hq
          exact hq.symm
  · unfold take_events
    cases hval : validate_app_state app with
    | some e => simp
    | none =>
      cases himpl : (take_impl_events app).2 <;> cases wf <;> simp [himpl]

/-! ## Theorems: claim C3 -/

/-- C3: in `Snapshot.take`, the metadata document — a single file named
`.snapshot_metadata` at the snapshot root — is written by rank 0 only, and
only after the calling rank's pending write I/O has fully completed
(`sync_complete`) and the full barrier has been passed; a rank with nonzero
rank never writes the metadata document; no metadata document is written
before the barrier; and no metadata document is written at all on any error
path of `take`. -/
theorem C3_metadata_commit (app : AppState) (paths : List String) (r : Nat)
    (wf : Option String) :
    (∀ e ∈ (take_events app paths r wf).events, isWriteMetadata e = true →
        e = Ev.writeMetadata SNAPSHOT_METADATA_FNAME)
    ∧ (r ≠ 0 → hasMetadataWrite (take_events app paths r wf).events = false)
    ∧ (r = 0 → (take_events app paths r wf).error = none →
        Ev.writeMetadata SNAPSHOT_METADATA_FNAME ∈ (take_events app paths r wf).events)
    ∧ hasMetadataWrite (beforeBarrier (take_events app paths r wf).events) = false
    ∧ (hasMetadataWrite (take_events app paths r wf).events = true →
        Ev.barrier ∈ (take_events app paths r wf).events
        ∧ Ev.syncComplete ∈ beforeBarrier (take_events app paths r wf).events)
    ∧ (hasMetadataWrite (take_events app paths r wf).events = true →
        (take_events app paths r wf).error = none) := by
  unfold take_events take_impl_events
  cases hval : validate_app_state app with
  | some e =>
    dsimp only
    exact ⟨by decide, fun _ => by decide, fun _ h2 => absurd h2 (Option.some_ne_none _),
      by decide, fun h => absurd h (by decide), fun h => absurd h (by decide)⟩
  | none =>
    cases hpop : pop_rng_state app with
    | error e2 =>
      dsimp only
      exact ⟨by decide, fun _ => by decide, fun _ h2 => absurd h2 (Option.some_ne_none _),
        by decide, fun h => absurd h (by decide), fun h => absurd h (by decide)⟩
    | ok pr =>
      obtain ⟨rngItem, rest⟩ := pr
      cases rngItem with
      | some kv =>
        cases wf with
        | some msg =>
          dsimp only
          exact ⟨by decide, fun _ => by decide, fun _ h2 => absurd h2 (Option.some_ne_none _),
            by decide, fun h => absurd h (by decide), fun h => absurd h (by decide)⟩
        | none =>
          by_cases hr : r = 0
          · subst hr; dsimp only; decide
          · dsimp only
            simp only [if_neg hr]
            exact ⟨by decide, fun _ => by decide, fun h => absurd h hr,
              by decide, by decide, by decide⟩
      | none =>
        cases wf with
        | some msg =>
          dsimp only
          exact ⟨by decide, fun _ => by decide, fun _ h2 => absurd h2 (Option.some_ne_none _),
            by decide, fun h => absurd h (by decide), fun h => absurd h (by decide)⟩
        | none =>
          by_cases hr : r = 0
          · subst hr; dsimp only; decide
          · dsimp only
            simp only [if_neg hr]
            exact ⟨by decide, fun _ => by decide, fun h => absurd h hr,
              by decide, by decide, by decide⟩

/-! ## Theorems: claim C7 -/

theorem validate_none_iff (app : AppState) :
    validate_app_state app = none ↔ has_non_stateful app = false := by
  induction app with
  | nil => simp [validate_app_state, has_non_stateful]
  | cons kv rest ih =>
    obtain ⟨k, v⟩ := kv
    by_cases hv : v = StateKind.nonStateful <;>
      simp [validate_app_state, has_non_stateful, hv, List.any_cons] at * <;>
      exact ih

theorem validate_some_shape (app : AppState) (e : PyErr)
    (h : validate_app_state app = some e) : ∃ k, e = PyErr.typeError k := by
  induction app with
  | nil => simp [validate_app_state] at h
  | cons kv rest ih =>
    obtain ⟨k, v⟩ := kv
    by_cases hv : v = StateKind.nonStateful
    · simp [validate_app_state, hv] at h
      exact ⟨k, h.symm⟩
    · simp [validate_app_state, hv] at h
      exact ih h

theorem pop_rng_error_of_many (app : AppState) (h : 1 < rng_count app) :
    pop_rng_state app = Except.error PyErr.multipleRngError := by
  unfold rng_count at h
  simp only [pop_rng_state]
  rw [if_pos h]

theorem pop_rng_ok_of_few (app : AppState) (h : ¬ 1 < rng_count app) :
    ∃ x, pop_rng_state app = Except.ok x := by
  unfold rng_count at h
  simp only [pop_rng_state]
  rw [if_neg h]
  cases hi : app.filter (fun kv => kv.2 == StateKind.rngState) with
  | nil => exact ⟨_, rfl⟩
  | cons kv rest => exact ⟨_, rfl⟩

theorem pop_rng_error_shape (app : AppState) (e : PyErr)
    (h : pop_rng_state app = Except.error e) :
    e = PyErr.multipleRngError ∧ 1 < rng_count app := by
  by_cases hc : 1 < rng_count app
  · rw [pop_rng_error_of_many app hc] at h
    exact ⟨(Except.error.injEq _ _).mp h.symm, hc⟩
  · obtain ⟨x, hx⟩ := pop_rng_ok_of_few app hc
    rw [hx] at h
    exact absurd h (by simp)

theorem pop_rng_ok_shape (app : AppState) (x : Option (String × StateKind) × AppState)
    (h : pop_rng_state app = Except.ok x) : ¬ 1 < rng_count app := by
  intro hc
  rw [pop_rng_error_of_many app hc] at h
  exact absurd h (by simp)

/-- C7: `take`, `async_take` and `restore` raise an error before performing
any storage I/O whenever `app_state` maps some key to a non-`Stateful` value
or contains more than one `RNGState` component (the raised error is one of
the two validation errors and the trace up to it contains no storage-I/O
event); and when `app_state` satisfies both conditions, neither check
raises on any of the three entry points. -/
theorem C7_validation_before_io (app : AppState) (paths : List String) (r : Nat)
    (wf rf : Option String) :
    ((has_non_stateful app = true ∨ 1 < rng_count app) →
      (isValidationError (take_events app paths r wf).error = true
        ∧ (take_events app paths r wf).events.all (fun e => !isStorageIOEv e) = true)
      ∧ (isValidationError (async_take_events app).2 = true
        ∧ (async_take_events app).1.all (fun e => !isStorageIOEv e) = true)
      ∧ (isValidationError (restore_events app rf).error = true
        ∧ (restore_events app rf).events.all (fun e => !isStorageIOEv e) = true))
    ∧ (has_non_stateful app = false → ¬ 1 < rng_count app →
      isValidationError (take_events app paths r wf).error = false
      ∧ isValidationError (async_take_events app).2 = false
      ∧ isValidationError (restore_events app rf).error = false) := by
  unfold take_events async_take_events restore_events take_impl_events
  cases hval : validate_app_state app with
  | some e =>
    obtain ⟨k, rfl⟩ := validate_some_shape app e hval
    have hns : has_non_stateful app = true := by
      cases hh : has_non_stateful app with
      | true => rfl
      | false =>
        have h2 := (validate_none_iff app).mpr hh
        rw [h2] at hval
        exact absurd hval (by simp)
    constructor
    · intro _
      exact ⟨⟨rfl, rfl⟩, ⟨rfl, rfl⟩, ⟨rfl, rfl⟩⟩
    · intro hns2 _
      rw [hns] at hns2
      exact absurd hns2 (by simp)
  | none =>
    have hns : has_non_stateful app = false := (validate_none_iff app).mp hval
    cases hpop : pop_rng_state app with
    | error e2 =>
      obtain ⟨rfl, hmany⟩ := pop_rng_error_shape app e2 hpop
      constructor
      · intro _
        exact ⟨⟨rfl, rfl⟩, ⟨rfl, rfl⟩, ⟨rfl, rfl⟩⟩
      · intro _ hfew
        exact absurd hmany hfew
    | ok pr =>
      have hfew : ¬ 1 < rng_count app := pop_rng_ok_shape app pr hpop
      obtain ⟨rngItem, rest⟩ := pr
      constructor
      · intro hbad
        rcases hbad with hb | hb
        · rw [hns] at hb
          exact absurd hb (by simp)
        · exact absurd hb hfew
      · intro _ _
        cases rngItem <;> cases wf <;> cases rf <;> exact ⟨rfl, rfl, rfl⟩

/-! ## Theorems: claim C5 -/

theorem run_steps_err_of_mem (steps : List CStep) (fs : CStep) (msg : String)
    (h : fs ∈ steps) : run_steps_err steps (some (fs, msg)) = some msg := by
  induction steps with
  | nil => simp at h
  | cons s rest ih =>
    by_cases hs : s = fs
    · simp [run_steps_err, hs]
    · have hf : fs ∈ rest := by
        rcases List.mem_cons.mp h with h1 | h1
        · exact absurd h1.symm hs
        · exact h1
      simp [run_steps_err, hs, ih hf]

theorem run_steps_err_none (steps : List CStep) : run_steps_err steps none = none := by
  induction steps with
  | nil => rfl
  | cons s rest ih => simp [run_steps_err, ih]

/-- C5: if an exception is raised inside the background commit of
`async_take` — at I/O completion, barrier arrival, the leader's metadata
write, or barrier departure — then `report_error` is called on the
store-based barrier with the exception's message, the exception is captured
on the `PendingSnapshot` handle, and a subsequent `wait()` raises an error
carrying that message; if no exception occurred, `wait()` returns a
snapshot for the coalesced path; and `done()` is a plain Boolean poll
(type-level: it cannot raise) that reports completion in both cases. -/
theorem C5_async_error_propagation (r : Nat) (fs : CStep) (msg path : String)
    (hstep : fs ∈ steps_for_rank r) :
    (Ev.reportError msg ∈ (complete_snapshot r (some (fs, msg))).events)
    ∧ (complete_snapshot r (some (fs, msg))).excInfo = some msg
    ∧ pending_wait (complete_snapshot r (some (fs, msg))) path
        = Except.error
            ("Encountered exception while taking snapshot asynchronously:\n" ++ msg)
    ∧ pending_wait (complete_snapshot r none) path = Except.ok path
    ∧ pending_done (complete_snapshot r (some (fs, msg))) = true
    ∧ pending_done (complete_snapshot r none) = true := by
  have herr := run_steps_err_of_mem _ fs msg hstep
  have hnone := run_steps_err_none (steps_for_rank r)
  unfold complete_snapshot pending_wait pending_done
  rw [herr, hnone]
  simp

/-- Witness for C5: rank 0's metadata write fails. -/
theorem C5_async_error_propagation_witness :
    (CStep.metadataWrite ∈ steps_for_rank 0)
    ∧ ((Ev.reportError "boom"
          ∈ (complete_snapshot 0 (some (CStep.metadataWrite, "boom"))).events)
      ∧ (complete_snapshot 0 (some (CStep.metadataWrite, "boom"))).excInfo = some "boom"
      ∧ pending_wait (complete_snapshot 0 (some (CStep.metadataWrite, "boom"))) "p"
          = Except.error
              ("Encountered exception while taking snapshot asynchronously:\n" ++ "boom")
      ∧ pending_wait (complete_snapshot 0 none) "p" = Except.ok "p"
      ∧ pending_done (complete_snapshot 0 (some (CStep.metadataWrite, "boom"))) = true
      ∧ pending_done (complete_snapshot 0 none) = true) :=
  ⟨by decide, C5_async_error_propagation 0 CStep.metadataWrite "boom" "p" (by decide)⟩

/-! ## Theorems: claim C8 -/

/-- C8 counterexample: `read_object` on the path `"abc/foo"` raises a
`ValueError` from `int("abc")` even though the unranked part `"foo"` is
present in the rank-projected manifest, so "raises an error iff the
unranked part of the path is absent from both mappings" fails as stated. -/
theorem C8_counterexample :
    (read_object_events (fun _ => ([("foo", Entry.primitive 7)], [])) "abc/foo").result
        = Except.error PyErr.valueError
    ∧ (([("foo", Entry.primitive 7)] : List (String × Entry)).lookup "foo"
        = some (Entry.primitive 7)) := by
  constructor
  · rfl
  · rfl

/-- C8 (amended): for a path whose rank component is well-formed (it splits
at a `/` and its rank part parses as a Python integer), `read_object`
raises an error iff the unranked part is absent from both the
rank-projected manifest and the merged sharded-tensor entries — and that
error is the manifest-lookup error, fatal to this single read only: no
trace of `read_object` ever writes the metadata document or otherwise
mutates the snapshot.  When the path resolves to a `PrimitiveEntry`, its
value is returned directly and no storage read request is scheduled.
(Malformed paths additionally raise `ValueError` from the parse, which is
what the counterexample exhibits.) -/
theorem C8_read_object_amended
    (project : Int → List (String × Entry) × List (String × Entry))
    (path rank_str unranked : String) (rank : Int)
    (hsplit : split_once path = some (rank_str, unranked))
    (hparse : parse_int_py rank_str = some rank) :
    ((∃ e, (read_object_events project path).result = Except.error e) ↔
      ((project rank).2.lookup unranked = none
        ∧ (project rank).1.lookup unranked = none))
    ∧ (∀ v, ((project rank).2.lookup unranked).or ((project rank).1.lookup unranked)
          = some (Entry.primitive v) →
        (read_object_events project path).result
            = Except.ok (ReadResult.primitiveValue v)
        ∧ Ev.scheduleReadIO ∉ (read_object_events project path).events)
    ∧ (∀ e ∈ (read_object_events project path).events, isWriteMetadata e = false)
    ∧ ((∃ e, (read_object_events project path).result = Except.error e) →
        (read_object_events project path).result = Except.error PyErr.lookupError) := by
  unfold read_object_events
  rw [hsplit]
  dsimp only
  rw [hparse]
  dsimp only
  cases hlk : ((project rank).2.lookup unranked).or ((project rank).1.lookup unranked) with
  | none =>
    have hboth : (project rank).2.lookup unranked = none
        ∧ (project rank).1.lookup unranked = none := by
      cases h2 : (project rank).2.lookup unranked with
      | some x => rw [h2] at hlk; simp [Option.or] at hlk
      | none =>
        cases h1 : (project rank).1.lookup unranked with
        | some x => rw [h2, h1] at hlk; simp [Option.or] at hlk
        | none => exact ⟨rfl, rfl⟩
    refine ⟨⟨fun _ => hboth, fun _ => ⟨PyErr.lookupError, rfl⟩⟩, ?_, by decide, fun _ => rfl⟩
    intro v hv
    exact absurd hv (by simp)
  | some entry =>
    have hne : ¬((project rank).2.lookup unranked = none
        ∧ (project rank).1.lookup unranked = none) := by
      rintro ⟨h2, h1⟩
      rw [h2, h1] at hlk
      simp [Option.or] at hlk
    cases entry with
    | primitive v =>
      refine ⟨⟨?_, fun hb => absurd hb hne⟩, ?_, ?_, ?_⟩
      · rintro ⟨e, he⟩
        exact absurd he (by simp)
      · intro v2 hv2
        have hvv : v = v2 := by simpa using hv2
        subst hvv
        dsimp only
        exact ⟨rfl, by decide⟩
      · dsimp only
        decide
      · rintro ⟨e, he⟩
        exact absurd he (by simp)
    | tensor =>
      refine ⟨⟨?_, fun hb => absurd hb hne⟩, ?_, by decide, ?_⟩
      · rintro ⟨e, he⟩
        exact absurd he (by simp)
      · intro v2 hv2
        exact absurd hv2 (by simp)
      · rintro ⟨e, he⟩
        exact absurd he (by simp)
    | shardedT =>
      refine ⟨⟨?_, fun hb => absurd hb hne⟩, ?_, by decide, ?_⟩
      · rintro ⟨e, he⟩
        exact absurd he (by simp)
      · intro v2 hv2
        exact absurd hv2 (by simp)
      · rintro ⟨e, he⟩
        exact absurd he (by simp)
    | container =>
      refine ⟨⟨?_, fun hb => absurd hb hne⟩, ?_, by decide, ?_⟩
      · rintro ⟨e, he⟩
        exact absurd he (by simp)
      · intro v2 hv2
        exact absurd hv2 (by simp)
      · rintro ⟨e, he⟩
        exact absurd he (by simp)

/-- Witness for the amended C8 at a concrete projection and path. -/
theorem C8_read_object_amended_witness :
    (split_once "0/foo" = some ("0", "foo"))
    ∧ (parse_int_py "0" = some 0)
    ∧ ((∃ e, (read_object_events
          (fun _ => ([("foo", Entry.primitive 7)], [])) "0/foo").result
          = Except.error e) ↔
        (([] : List (String × Entry)).lookup "foo" = none
          ∧ ([("foo", Entry.primitive 7)] : List (String × Entry)).lookup "foo" = none))
    ∧ (∀ v, (([] : List (String × Entry)).lookup "foo").or
          (([("foo", Entry.primitive 7)] : List (String × Entry)).lookup "foo")
          = some (Entry.primitive v) →
        (read_object_events (fun _ => ([("foo", Entry.primitive 7)], [])) "0/foo").result
            = Except.ok (ReadResult.primitiveValue v)
        ∧ Ev.scheduleReadIO ∉ (read_object_events
            (fun _ => ([("foo", Entry.primitive 7)], [])) "0/foo").events)
    ∧ (∀ e ∈ (read_object_events
          (fun _ => ([("foo", Entry.primitive 7)], [])) "0/foo").events,
        isWriteMetadata e = false)
    ∧ ((∃ e, (read_object_events
          (fun _ => ([("foo", Entry.primitive 7)], [])) "0/foo").result
          = Except.error e) →
        (read_object_events (fun _ => ([("foo", Entry.primitive 7)], [])) "0/foo").result
            = Except.error PyErr.lookupError) :=
  have hmain := C8_read_object_amended (fun _ => ([("foo", Entry.primitive 7)], []))
    "0/foo" "0" "foo" 0 rfl rfl
  ⟨rfl, rfl, hmain.1, hmain.2.1, hmain.2.2.1, hmain.2.2.2⟩

/-! ## Theorems: claim C9 -/

/-- C9 counterexample: in `Snapshot.take`, when `sync_complete` re-raises a
write failure, the storage plugin and event loop are never closed — the
trace opens the storage but contains no close events — refuting the claim
that every operation closes them on every exit path. -/
theorem C9_counterexample :
    Ev.openStorage ∈ (take_events [] ["p"] 0 (some "disk full")).events
    ∧ Ev.closeStorage ∉ (take_events [] ["p"] 0 (some "disk full")).events
    ∧ Ev.closeEventLoop ∉ (take_events [] ["p"] 0 (some "disk full")).events := by
  decide

theorem complete_snapshot_closes (r : Nat) (failure : Option (CStep × String)) :
    closesAll (complete_snapshot r failure).events := by
  unfold complete_snapshot
  cases run_steps_err (steps_for_rank r) failure <;>
    simp [closesAll, List.mem_append]

/-- C9 (amended): only the async background commit closes its storage
plugin and event loop on every exit path (its `finally` block); `take` and
`restore` close them exactly when they complete without error, and
`read_object` closes them when it performs an object read to completion;
but an error raised after the storage plugin is opened — `sync_complete`
re-raising a write failure inside `take`, or a failed read inside
`restore` — and `read_object`'s direct return of a primitive value leave
the storage plugin and event loop unclosed. -/
theorem C9_resource_closing (app : AppState) (paths : List String) (r : Nat)
    (failure : Option (CStep × String)) (msg : String)
    (project : Int → List (String × Entry) × List (String × Entry)) (path : String) :
    closesAll (complete_snapshot r failure).events
    ∧ ((take_events app paths r none).error = none →
        closesAll (take_events app paths r none).events)
    ∧ ((take_events app paths r (some msg)).error = some (PyErr.writeFailure msg) →
        Ev.closeStorage ∉ (take_events app paths r (some msg)).events
        ∧ Ev.closeEventLoop ∉ (take_events app paths r (some msg)).events)
    ∧ ((restore_events app none).error = none →
        closesAll (restore_events app none).events)
    ∧ ((restore_events app (some msg)).error = some (PyErr.readFailure msg) →
        Ev.closeStorage ∉ (restore_events app (some msg)).events
        ∧ Ev.closeEventLoop ∉ (restore_events app (some msg)).events)
    ∧ ((read_object_events project path).result = Except.ok ReadResult.loadedObject →
        closesAll (read_object_events project path).events)
    ∧ (∀ v, (read_object_events project path).result
          = Except.ok (ReadResult.primitiveValue v) →
        Ev.openStorage ∈ (read_object_events project path).events
        ∧ Ev.closeStorage ∉ (read_object_events project path).events
        ∧ Ev.closeEventLoop ∉ (read_object_events project path).events) := by
  refine ⟨complete_snapshot_closes r failure, ?_, ?_, ?_, ?_, ?_, ?_⟩
  · unfold take_events take_impl_events
    cases hval : validate_app_state app with
    | some e => intro h; exact absurd h (Option.some_ne_none _)
    | none =>
      cases hpop : pop_rng_state app with
      | error e2 => intro h; exact absurd h (Option.some_ne_none _)
      | ok pr =>
        obtain ⟨ri, rest⟩ := pr
        cases ri with
        | some kv =>
          intro _
          dsimp only
          by_cases hr : r = 0
          · subst hr
            exact ⟨by decide, by decide⟩
          · simp only [if_neg hr]
            exact ⟨by decide, by decide⟩
        | none =>
          intro _
          dsimp only
          by_cases hr : r = 0
          · subst hr
            exact ⟨by decide, by decide⟩
          · simp only [if_neg hr]
            exact ⟨by decide, by decide⟩
  · unfold take_events take_impl_events
    cases hval : validate_app_state app with
    | some e =>
      obtain ⟨k, rfl⟩ := validate_some_shape app e hval
      intro h
      simp only [Option.some.injEq] at h
      exact absurd h (by simp)
    | none =>
      cases hpop : pop_rng_state app with
      | error e2 =>
        intro h
        have he2 := pop_rng_error_shape app e2 hpop
        rw [he2.1] at h
        simp only [Option.some.injEq] at h
        exact absurd h (by simp)
      | ok pr =>
        obtain ⟨ri, rest⟩ := pr
        cases ri <;> intro _ <;> dsimp only <;> exact ⟨by decide, by decide⟩
  · unfold restore_events
    cases hval : validate_app_state app with
    | some e => intro h; exact absurd h (Option.some_ne_none _)
    | none =>
      cases hpop : pop_rng_state app with
      | error e2 => intro h; exact absurd h (Option.some_ne_none _)
      | ok pr =>
        obtain ⟨ri, rest⟩ := pr
        cases ri <;> intro _ <;> dsimp only <;> exact ⟨by decide, by decide⟩
  · unfold restore_events
    cases hval : validate_app_state app with
    | some e =>
      obtain ⟨k, rfl⟩ := validate_some_shape app e hval
      intro h
      simp only [Option.some.injEq] at h
      exact absurd h (by simp)
    | none =>
      cases hpop : pop_rng_state app with
      | error e2 =>
        intro h
        have he2 := pop_rng_error_shape app e2 hpop
        rw [he2.1] at h
        simp only [Option.some.injEq] at h
        exact absurd h (by simp)
      | ok pr =>
        obtain ⟨ri, rest⟩ := pr
        cases ri <;> intro _ <;> dsimp only <;> exact ⟨by decide, by decide⟩
  · unfold read_object_events
    cases hsp : split_once path with
    | none => intro h; exact absurd h (by simp)
    | some q =>
      obtain ⟨rank_str, unranked⟩ := q
      dsimp only
      cases hpr : parse_int_py rank_str with
      | none => intro h; exact absurd h (by simp)
      | some rank =>
        dsimp only
        cases hlk : (((project rank).2.lookup unranked).or
            ((project rank).1.lookup unranked)) with
        | none => intro h; exact absurd h (by simp)
        | some entry =>
          cases entry with
          | primitive v => intro h; exact absurd h (by simp)
          | tensor => intro _; exact ⟨by decide, by decide⟩
          | shardedT => intro _; exact ⟨by decide, by decide⟩
          | container => intro _; exact ⟨by decide, by decide⟩
  · unfold read_object_events
    cases hsp : split_once path with
    | none => intro v h; exact absurd h (by simp)
    | some q =>
      obtain ⟨rank_str, unranked⟩ := q
      dsimp only
      cases hpr : parse_int_py rank_str with
      | none => intro v h; exact absurd h (by simp)
      | some rank =>
        dsimp only
        cases hlk : (((project rank).2.lookup unranked).or
            ((project rank).1.lookup unranked)) with
        | none => intro v h; exact absurd h (by simp)
        | some entry =>
          cases entry with
          | primitive v2 =>
            intro v h
            dsimp only
            exact ⟨by decide, by decide, by decide⟩
          | tensor => intro v h; exact absurd h (by simp)
          | shardedT => intro v h; exact absurd h (by simp)
          | container => intro v h; exact absurd h (by simp)

/-! ## Theorems: claim C4 -/

theorem capture_events_shape (app : TAppState) (gk : List String) :
    ∀ e ∈ capture_events app gk, ∃ k, e = REv.keyCapture k := by
  intro e he
  rcases List.mem_filterMap.mp he with ⟨k, _, hek⟩
  by_cases h : (app.lookup k).isSome
  · rw [if_pos h] at hek
    exact ⟨k, (((Option.some.injEq _ _).mp hek)).symm⟩
  · rw [if_neg h] at hek
    exact absurd hek (by simp)

theorem load_events_shape (app : TAppState) (gk : List String) :
    ∀ e ∈ load_events app gk, ∃ k, e = REv.keyLoad k := by
  intro e he
  rcases List.mem_filterMap.mp he with ⟨k, _, hek⟩
  by_cases h : (app.lookup k).isSome
  · rw [if_pos h] at hek
    exact ⟨k, (((Option.some.injEq _ _).mp hek)).symm⟩
  · rw [if_neg h] at hek
    exact absurd hek (by simp)

/-- C4: when `app_state` contains an `RNGState` component, `_take_impl`
captures it first — the RNG capture is the head of the trace, before any
other component's capture — and restores the captured RNG state via
`load_state_dict` immediately after the other components' captures and
before classification, partitioning or I/O, so `take` leaves the RNG state
unchanged; on `restore`, the RNG state is loaded last, after every other
component in the global key order, and restoring the snapshot just taken
sets the RNG state to the very value it had when `take` started. -/
theorem C4_rng_capture_first_restore_last (app : TAppState) (gk gk2 : List String)
    (rng0 rng1 storedOther : Nat) (rkey : String) (rc : TComp)
    (hfind : rng_item_T app = some (rkey, rc)) :
    (take_impl_rng app gk rng0).events.head? = some REv.rngCapture
    ∧ (∃ mid, (take_impl_rng app gk rng0).events
          = REv.rngCapture :: (mid ++ [REv.rngRestore, REv.classify])
        ∧ ∀ e ∈ mid, ∃ k, e = REv.keyCapture k)
    ∧ (take_impl_rng app gk rng0).finalRng = rng0
    ∧ (take_impl_rng app gk rng0).capturedRng = some rng0
    ∧ (restore_rng app gk2 storedOther rng1).events.getLast? = some REv.rngLoad
    ∧ (∀ e ∈ (restore_rng app gk2 storedOther rng1).events.dropLast,
        ∃ k, e = REv.keyLoad k)
    ∧ (restore_rng app gk2 ((take_impl_rng app gk rng0).capturedRng.getD 0) rng1).finalRng
        = rng0 := by
  unfold take_impl_rng restore_rng
  rw [hfind]
  dsimp only
  refine ⟨rfl, ⟨capture_events (app.filter (fun kv => !(kv.1 == rkey))) gk, rfl,
    capture_events_shape _ gk⟩, rfl, rfl, ?_, ?_, rfl⟩
  · exact List.getLast?_concat _
  · rw [List.dropLast_concat]
    exact load_events_shape _ gk2

/-- Witness for C4 at a concrete app state with one ordinary component and
one `RNGState`. -/
theorem C4_rng_capture_first_restore_last_witness :
    (rng_item_T [("model", TComp.ordinary (fun n => n + 1) (fun n => n + 3)),
        ("rng", TComp.rngState)] = some ("rng", TComp.rngState))
    ∧ ((take_impl_rng [("model", TComp.ordinary (fun n => n + 1) (fun n => n + 3)),
          ("rng", TComp.rngState)] ["model", "rng"] 42).events.head?
        = some REv.rngCapture
      ∧ (∃ mid, (take_impl_rng [("model", TComp.ordinary (fun n => n + 1) (fun n => n + 3)),
            ("rng", TComp.rngState)] ["model", "rng"] 42).events
            = REv.rngCapture :: (mid ++ [REv.rngRestore, REv.classify])
          ∧ ∀ e ∈ mid, ∃ k, e = REv.keyCapture k)
      ∧ (take_impl_rng [("model", TComp.ordinary (fun n => n + 1) (fun n => n + 3)),
          ("rng", TComp.rngState)] ["model", "rng"] 42).finalRng = 42
      ∧ (take_impl_rng [("model", TComp.ordinary (fun n => n + 1) (fun n => n + 3)),
          ("rng", TComp.rngState)] ["model", "rng"] 42).capturedRng = some 42
      ∧ (restore_rng [("model", TComp.ordinary (fun n => n + 1) (fun n => n + 3)),
          ("rng", TComp.rngState)] ["model", "rng"] 7 99).events.getLast?
          = some REv.rngLoad
      ∧ (∀ e ∈ (restore_rng [("model", TComp.ordinary (fun n => n + 1) (fun n => n + 3)),
          ("rng", TComp.rngState)] ["model", "rng"] 7 99).events.dropLast,
          ∃ k, e = REv.keyLoad k)
      ∧ (restore_rng [("model", TComp.ordinary (fun n => n + 1) (fun n => n + 3)),
          ("rng", TComp.rngState)] ["model", "rng"]
          ((take_impl_rng [("model", TComp.ordinary (fun n => n + 1) (fun n => n + 3)),
            ("rng", TComp.rngState)] ["model", "rng"] 42).capturedRng.getD 0) 99).finalRng
          = 42) :=
  ⟨rfl, C4_rng_capture_first_restore_last
    [("model", TComp.ordinary (fun n => n + 1) (fun n => n + 3)), ("rng", TComp.rngState)]
    ["model", "rng"] ["model", "rng"] 42 99 7 "rng" TComp.rngState rfl⟩

/-! ## Theorems: claim C10 -/

theorem pop_rng_state_ref_error (hh : Heap) (r : Ref) (e : PyErr) (h2 : Heap)
    (hp : pop_rng_state_ref hh r = Except.error (e, h2)) : h2 = hh := by
  simp only [pop_rng_state_ref] at hp
  by_cases hc : 1 < ((hh.get r).filter (fun kv => kv.2 == StateKind.rngState)).length
  · rw [if_pos hc] at hp
    exact (Prod.mk.injEq _ _ _ _ |>.mp ((Except.error.injEq _ _).mp hp)).2.symm
  · rw [if_neg hc] at hp
    cases hi : (hh.get r).filter (fun kv => kv.2 == StateKind.rngState) with
    | nil => rw [hi] at hp; exact absurd hp (by simp)
    | cons kv rest => rw [hi] at hp; exact absurd hp (by simp)

theorem pop_rng_state_ref_ok (hh : Heap) (r : Ref) (h2 : Heap)
    (hp : pop_rng_state_ref hh r = Except.ok h2) (r2 : Ref) (hne : r2 ≠ r) :
    h2.get r2 = hh.get r2 := by
  simp only [pop_rng_state_ref] at hp
  by_cases hc : 1 < ((hh.get r).filter (fun kv => kv.2 == StateKind.rngState)).length
  · rw [if_pos hc] at hp
    exact absurd hp (by simp)
  · rw [if_neg hc] at hp
    cases hi : (hh.get r).filter (fun kv => kv.2 == StateKind.rngState) with
    | nil =>
      rw [hi] at hp
      rw [← (Except.ok.injEq _ _).mp hp]
    | cons kv rest =>
      rw [hi] at hp
      rw [← (Except.ok.injEq _ _).mp hp]
      unfold Heap.get Heap.set
      dsimp only
      simp only [List.getD_eq_getElem?_getD,
        List.getElem?_set_ne (fun hq => hne hq.symm)]

/-- C10: `take`, `async_take` and `restore` never mutate the caller's
`app_state` dict: each operates on a shallow copy, and the `del` performed
by `_pop_rng_state` removes the key only from that copy, so whether the
shared state manipulation returns or raises, the caller's dict holds
exactly the same key-to-component bindings as before, and the copy is a
distinct reference. -/
theorem C10_caller_appstate_preserved (h : Heap) (caller : Ref)
    (hv : caller < h.cells.length) :
    (∀ e h2, snapshot_appstate_ops h caller = Except.error (e, h2) →
      h2.get caller = h.get caller)
    ∧ (∀ h2 rc, snapshot_appstate_ops h caller = Except.ok (h2, rc) →
      h2.get caller = h.get caller ∧ rc ≠ caller) := by
  have hcopyget : (dict_copy h caller).1.get caller = h.get caller := by
    unfold dict_copy Heap.alloc Heap.get
    dsimp only
    rw [List.getD_eq_getElem?_getD, List.getD_eq_getElem?_getD,
      List.getElem?_append_left hv]
  have hrcne : caller ≠ (dict_copy h caller).2 := by
    unfold dict_copy Heap.alloc
    exact Nat.ne_of_lt hv
  simp only [snapshot_appstate_ops]
  cases hpop : pop_rng_state_ref (dict_copy h caller).1 (dict_copy h caller).2 with
  | error e2 =>
    obtain ⟨e0, hp0⟩ := e2
    constructor
    · intro e h2 heq
      dsimp only at heq
      have hinj := (Except.error.injEq _ _).mp heq
      have hh2 : hp0 = h2 := ((Prod.mk.injEq _ _ _ _).mp hinj).2
      rw [← hh2, pop_rng_state_ref_error _ _ _ _ hpop]
      exact hcopyget
    · intro h2 rc heq
      dsimp only at heq
      exact absurd heq (by simp)
  | ok hok =>
    constructor
    · intro e h2 heq
      dsimp only at heq
      exact absurd heq (by simp)
    · intro h2 rc heq
      dsimp only at heq
      have hinj := (Except.ok.injEq _ _).mp heq
      have hh2 : hok = h2 := ((Prod.mk.injEq _ _ _ _).mp hinj).1
      have hrc : (dict_copy h caller).2 = rc := ((Prod.mk.injEq _ _ _ _).mp hinj).2
      refine ⟨?_, fun hq => hrcne (hq.symm.trans hrc.symm)⟩
      rw [← hh2, pop_rng_state_ref_ok _ _ _ hpop caller hrcne]
      exact hcopyget

/-- Witness for C10 at a concrete two-cell heap. -/
theorem C10_caller_appstate_preserved_witness :
    (0 < (Heap.mk [[("rng", StateKind.rngState), ("m", StateKind.stateful)]]).cells.length)
    ∧ ((∀ e h2, snapshot_appstate_ops
          (Heap.mk [[("rng", StateKind.rngState), ("m", StateKind.stateful)]]) 0
            = Except.error (e, h2) →
        h2.get 0 = (Heap.mk [[("rng", StateKind.rngState), ("m", StateKind.stateful)]]).get 0)
      ∧ (∀ h2 rc, snapshot_appstate_ops
          (Heap.mk [[("rng", StateKind.rngState), ("m", StateKind.stateful)]]) 0
            = Except.ok (h2, rc) →
        h2.get 0 = (Heap.mk [[("rng", StateKind.rngState), ("m", StateKind.stateful)]]).get 0
          ∧ rc ≠ 0)) :=
  ⟨by decide, C10_caller_appstate_preserved
    (Heap.mk [[("rng", StateKind.rngState), ("m", StateKind.stateful)]]) 0 (by decide)⟩

end TorchSnapshot
